import Mathlib

/-!
Verification of the Atomic Chess engine in `ChessVar.py`.

The board is modelled as a total function `Fin 8 → Fin 8 → Char`, using the
same single-character piece encoding as the source (`'r'`/`'R'`, …, `' '` for
an empty square).  Python list indexing on the 8-element rows is modelled by
`pyIdx`: an index `i` is valid when `-8 ≤ i ≤ 7`, negative indices wrap, and
anything else raises `IndexError`.  A raised exception is modelled by the
`Except` value in the first component of `make_move`'s result; the second
component is the state of the `ChessVar` object after the call (exceptions in
the source occur before any mutation, and the proofs below establish exactly
that for the model).  `int(...)` on the single rank character is modelled by
`pyInt` (ASCII digits; the squares of this engine are ASCII).
-/

/-- Exceptions the Python source can raise on a move request. -/
inductive PyExc where
  | valueError
  | indexError
  deriving DecidableEq

/-- An 8×8 board of single-character cells, as in `ChessVar._board`. -/
abbrev Board := Fin 8 → Fin 8 → Char

/-- The state of a `ChessVar` object: board, current turn (`'W'`/`'B'`),
and game state (`"UNFINISHED"`, `"WHITE_WON"` or `"BLACK_WON"`). -/
structure ChessVar where
  _board : Board
  _current_turn : Char
  _game_state : String

/-- Python indexing into a list of length 8: indices `0..7` are direct,
`-8..-1` wrap around, anything else raises `IndexError` (`none`). -/
def pyIdx (i : Int) : Option (Fin 8) :=
  if h : 0 ≤ i ∧ i < 8 then some ⟨i.toNat, by omega⟩
  else if h' : -8 ≤ i ∧ i < 0 then some ⟨(i + 8).toNat, by omega⟩
  else none

/-- Total board read at Python (possibly negative, wrapping) indices.
Within this development it is only applied where the Python source cannot
raise `IndexError`; the `' '` default is never reached on those paths. -/
def cell (b : Board) (i j : Int) : Char :=
  match pyIdx i, pyIdx j with
  | some i', some j' => b i' j'
  | _, _ => ' '

/-- Board read that raises `IndexError` exactly when Python list indexing
would (used for `self._board[start_row][start_col]` in `make_move`). -/
def cellE (b : Board) (i j : Int) : Except PyExc Char :=
  match pyIdx i, pyIdx j with
  | some i', some j' => Except.ok (b i' j')
  | _, _ => Except.error PyExc.indexError

/-- Functional update of one board cell. -/
def setCell (b : Board) (i j : Fin 8) (v : Char) : Board :=
  fun i' j' => if i' = i ∧ j' = j then v else b i' j'

/-- `int(c)` for the single rank character: ASCII digits parse, anything
else raises `ValueError`. -/
def pyInt (c : Char) : Except PyExc Int :=
  if c.isDigit then Except.ok ((c.toNat : Int) - 48) else Except.error PyExc.valueError

/-- `ChessVar._convert_square_to_indices`: unpack the two characters
(`ValueError` unless the string has exactly two), parse the rank digit, and
return `(8 - int(row), ord(column) - ord('a'))`. -/
def _convert_square_to_indices (square : String) : Except PyExc (Int × Int) :=
  match square.data with
  | [column, row] =>
    match pyInt row with
    | Except.ok r => Except.ok (8 - r, (column.toNat : Int) - 97)
    | Except.error e => Except.error e
  | _ => Except.error PyExc.valueError

/-- Python `range(start, stop, step)` for `step = 1` or `step = -1`. -/
def pyRange (start stop step : Int) : List Int :=
  if step = 1 then (List.range (stop - start).toNat).map (fun k => start + k)
  else (List.range (start - stop).toNat).map (fun k => start - k)

/-- The bishop/queen diagonal `while row != next_row` scan of the source:
walk `(row, col)` by `(row_step, col_step)` and demand every intervening
square empty.  The fuel bound (64 in every use) is never exhausted on
inputs reachable from `make_move`, where the walk ends within 8 steps. -/
def diagClear (board : Board) (fuel : Nat) (row col next_row row_step col_step : Int) : Bool :=
  match fuel with
  | 0 => false
  | f + 1 =>
    if row = next_row then true
    else if cell board row col ≠ ' ' then false
    else diagClear board f (row + row_step) (col + col_step) next_row row_step col_step

/-- `ChessVar._is_valid_move`, branch for branch.  `turn` is
`self._current_turn`, which the source consults in the pawn branch.  The
knight branch keeps the source's operator precedence: the occupancy test
binds only to the `(2,1)` shape.  A piece character matching no branch
yields `false` (the source falls through returning `None`, which the caller
uses as a boolean). -/
def _is_valid_move (board : Board) (turn : Char) (piece : Char)
    (start_row start_col next_row next_col : Int) : Bool :=
  if piece.toLower = 'k' then
    -- King: one square in any direction
    if (start_row - next_row).natAbs ≤ 1 ∧ (start_col - next_col).natAbs ≤ 1 then
      cell board next_row next_col == ' '
        || (cell board next_row next_col).isLower != piece.isLower
    else false
  else if piece.toLower = 'p' then
    -- Pawn
    if start_col = next_col then
      if (turn = 'W' ∧ start_row - next_row = 1) ∨ (turn = 'B' ∧ next_row - start_row = 1) then
        cell board next_row next_col == ' '
      else if (turn = 'W' ∧ start_row = 6 ∧ next_row = 4)
          ∨ (turn = 'B' ∧ start_row = 1 ∧ next_row = 3) then
        cell board next_row next_col == ' '
          && cell board (Int.fdiv (start_row + next_row) 2) next_col == ' '
      else false
    else if (start_col - next_col).natAbs = 1
        ∧ ((turn = 'W' ∧ start_row - next_row = 1) ∨ (turn = 'B' ∧ next_row - start_row = 1)) then
      cell board next_row next_col != ' '
        && (cell board next_row next_col).isLower != piece.isLower
    else false
  else if piece.toLower = 'r' then
    -- Rook
    if start_row ≠ next_row ∧ start_col ≠ next_col then false
    else
      (if start_row = next_row then
        -- Horizontal move: the loop bound-checks each column, then tests emptiness
        (pyRange (start_col + (if start_col < next_col then 1 else -1)) next_col
            (if start_col < next_col then 1 else -1)).all
          (fun col => decide (0 ≤ col ∧ col < 8) && (cell board start_row col == ' '))
      else
        (pyRange (start_row + (if start_row < next_row then 1 else -1)) next_row
            (if start_row < next_row then 1 else -1)).all
          (fun row => decide (0 ≤ row ∧ row < 8) && (cell board row start_col == ' ')))
      && (cell board next_row next_col == ' '
        || (cell board next_row next_col).isLower != piece.isLower)
  else if piece.toLower = 'n' then
    -- Knight: as in the source, the occupancy test is attached to the
    -- (2,1) shape only ( `A or B and C` parses as `A or (B and C)` )
    ((next_row - start_row).natAbs == 1 && (next_col - start_col).natAbs == 2)
      || (((next_row - start_row).natAbs == 2 && (next_col - start_col).natAbs == 1)
        && (cell board next_row next_col == ' '
          || (cell board next_row next_col).isLower != piece.isLower))
  else if piece.toLower = 'b' then
    -- Bishop
    if (start_row - next_row).natAbs ≠ (start_col - next_col).natAbs then false
    else
      diagClear board 64
        (start_row + (if start_row < next_row then 1 else -1))
        (start_col + (if start_col < next_col then 1 else -1))
        next_row
        (if start_row < next_row then 1 else -1)
        (if start_col < next_col then 1 else -1)
      && (cell board next_row next_col == ' '
        || (cell board next_row next_col).isLower != piece.isLower)
  else if piece.toLower = 'q' then
    -- Queen: straight moves scan without per-square bound checks
    (if start_row = next_row then
      (pyRange (start_col + (if start_col < next_col then 1 else -1)) next_col
          (if start_col < next_col then 1 else -1)).all
        (fun col => cell board start_row col == ' ')
    else if start_col = next_col then
      (pyRange (start_row + (if start_row < next_row then 1 else -1)) next_row
          (if start_row < next_row then 1 else -1)).all
        (fun row => cell board row start_col == ' ')
    else if (start_row - next_row).natAbs = (start_col - next_col).natAbs then
      diagClear board 64
        (start_row + (if start_row < next_row then 1 else -1))
        (start_col + (if start_col < next_col then 1 else -1))
        next_row
        (if start_row < next_row then 1 else -1)
        (if start_col < next_col then 1 else -1)
    else false)
    && (cell board next_row next_col == ' '
      || (cell board next_row next_col).isLower != piece.isLower)
  else false

/-- One square of the explosion loop body: a non-pawn occupant is removed;
a removed king sets the winner to the opposite color. -/
def explosionStep (bs : Board × String) (p : Fin 8 × Fin 8) : Board × String :=
  if (bs.1 p.1 p.2).toLower ≠ 'p' then
    ( setCell bs.1 p.1 p.2 ' '
    , if (bs.1 p.1 p.2).toLower = 'k' then
        (if bs.1 p.1 p.2 = 'K' then "BLACK_WON" else "WHITE_WON")
      else bs.2 )
  else bs

/-- `range(max(0, x-1), min(8, x+2))` over the board coordinates
(natural-number subtraction supplies the `max 0`). -/
def blast_range (x : Fin 8) : List (Fin 8) :=
  (List.finRange 8).filter (fun i => x.val - 1 ≤ i.val ∧ i.val < min 8 (x.val + 2))

/-- The 3×3 neighbourhood clipped to the board, in the source's scan order
(rows outer, columns inner). -/
def blast_cells (r c : Fin 8) : List (Fin 8 × Fin 8) :=
  (blast_range r).product (blast_range c)

/-- `ChessVar._explosion`: clear every non-pawn piece in the clipped 3×3
neighbourhood of `(row, col)`; each removed king sets the game state to a
win for the opposite color. -/
def _explosion (b : Board) (state : String) (row col : Fin 8) : Board × String :=
  (blast_cells row col).foldl explosionStep (b, state)

/-- The arithmetic description of the blast radius used by the claims:
rows `[max(0,r−1), min(7,r+1)]`, columns `[max(0,c−1), min(7,c+1)]`. -/
def in_blast (r c i j : Fin 8) : Prop :=
  r.val - 1 ≤ i.val ∧ i.val ≤ min (r.val + 1) 7 ∧ c.val - 1 ≤ j.val ∧ j.val ≤ min (c.val + 1) 7

instance (r c i j : Fin 8) : Decidable (in_blast r c i j) := by
  unfold in_blast; infer_instance

/-- Lines 64–77 of `make_move`, once all four indices are resolved to
squares: record the captured piece, move the piece (destination first, then
clear the origin, as in the source), on a capture set the direct-capture
winner and run the explosion, and finally flip the turn iff the game is
still unfinished. -/
def applied_state (g : ChessVar) (si sj di dj : Fin 8) : ChessVar :=
  let piece := g._board si sj
  let captured_piece := g._board di dj
  let b2 := setCell (setCell g._board di dj piece) si sj ' '
  if captured_piece ≠ ' ' then
    let st1 :=
      if captured_piece.toLower == 'k' || piece.toLower == 'k' then
        (if captured_piece.toLower == 'k' then "WHITE_WON" else "BLACK_WON")
      else g._game_state
    let bs := _explosion b2 st1 di dj
    { _board := bs.1
    , _current_turn :=
        if bs.2 = "UNFINISHED" then
          (if g._current_turn = 'W' then 'B' else 'W')
        else g._current_turn
    , _game_state := bs.2 }
  else
    { _board := b2
    , _current_turn :=
        if g._game_state = "UNFINISHED" then
          (if g._current_turn = 'W' then 'B' else 'W')
        else g._current_turn
    , _game_state := g._game_state }

/-- `ChessVar.make_move`.  The first component is the Python return value
(`Except.error` for a raised exception), the second the object state after
the call. -/
def make_move (g : ChessVar) (start_square next_square : String) :
    Except PyExc Bool × ChessVar :=
  if g._game_state ≠ "UNFINISHED" then (Except.ok false, g)
  else
    match _convert_square_to_indices start_square with
    | Except.error e => (Except.error e, g)
    | Except.ok (start_row, start_col) =>
      match _convert_square_to_indices next_square with
      | Except.error e => (Except.error e, g)
      | Except.ok (next_row, to_col) =>
        if ¬(0 ≤ next_row ∧ next_row < 8 ∧ 0 ≤ to_col ∧ to_col < 8) then (Except.ok false, g)
        else
          match pyIdx start_row, pyIdx start_col with
          | some sr, some sc =>
            let piece := g._board sr sc
            -- `if not piece` in the source is vacuous: every cell is a
            -- non-empty one-character string, hence truthy
            if (piece.isLower && g._current_turn == 'W')
                || (piece.isUpper && g._current_turn == 'B') then (Except.ok false, g)
            else if _is_valid_move g._board g._current_turn piece
                start_row start_col next_row to_col then
              match pyIdx next_row, pyIdx to_col with
              | some nr, some nc => (Except.ok true, applied_state g sr sc nr nc)
              | _, _ => (Except.error PyExc.indexError, g)
            else (Except.ok false, g)
          | _, _ => (Except.error PyExc.indexError, g)

/-- Build a board function from the source's list-of-rows layout. -/
def boardOfLists (l : List (List Char)) : Board :=
  fun i j => ((l.getD i.val []).getD j.val ' ')

/-- The initial position of `ChessVar.__init__`. -/
def initial_board : Board := boardOfLists
  [ ['r', 'n', 'b', 'q', 'k', 'b', 'n', 'r']
  , ['p', 'p', 'p', 'p', 'p', 'p', 'p', 'p']
  , [' ', ' ', ' ', ' ', ' ', ' ', ' ', ' ']
  , [' ', ' ', ' ', ' ', ' ', ' ', ' ', ' ']
  , [' ', ' ', ' ', ' ', ' ', ' ', ' ', ' ']
  , [' ', ' ', ' ', ' ', ' ', ' ', ' ', ' ']
  , ['P', 'P', 'P', 'P', 'P', 'P', 'P', 'P']
  , ['R', 'N', 'B', 'Q', 'K', 'B', 'N', 'R'] ]

/-- A freshly constructed `ChessVar`: initial board, White to move. -/
def initial_game : ChessVar :=
  { _board := initial_board, _current_turn := 'W', _game_state := "UNFINISHED" }

/-- All 64 squares (for counting pieces). -/
def allCells : List (Fin 8 × Fin 8) := (List.finRange 8).product (List.finRange 8)

/-- Number of squares holding the character `ch`. -/
def kCount (b : Board) (ch : Char) : Nat :=
  (allCells.filter (fun p => b p.1 p.2 == ch)).length

/-- Well-formed square notation: one lowercase file letter `'a'`–`'h'`
followed by one rank digit `'1'`–`'8'`. -/
def well_formed (s : String) : Prop :=
  ∃ cf cr, s.data = [cf, cr]
    ∧ cf ∈ ['a', 'b', 'c', 'd', 'e', 'f', 'g', 'h']
    ∧ cr ∈ ['1', '2', '3', '4', '5', '6', '7', '8']

/-- States reachable from the fresh game by `make_move` calls (the state
after a call is the second component of the result, whatever the outcome
of the call). -/
inductive Reachable : ChessVar → Prop where
  | init : Reachable initial_game
  | step {g : ChessVar} (a b : String) : Reachable g → Reachable (make_move g a b).2

/-! ### Concrete positions used in the claim theorems -/

/-- A position with only the white king on e8 and a black rook on e4,
Black to move. -/
def board_c1 : Board := boardOfLists
  [ [' ', ' ', ' ', ' ', 'K', ' ', ' ', ' ']
  , [' ', ' ', ' ', ' ', ' ', ' ', ' ', ' ']
  , [' ', ' ', ' ', ' ', ' ', ' ', ' ', ' ']
  , [' ', ' ', ' ', ' ', ' ', ' ', ' ', ' ']
  , [' ', ' ', ' ', ' ', 'r', ' ', ' ', ' ']
  , [' ', ' ', ' ', ' ', ' ', ' ', ' ', ' ']
  , [' ', ' ', ' ', ' ', ' ', ' ', ' ', ' ']
  , [' ', ' ', ' ', ' ', ' ', ' ', ' ', ' '] ]

/-- The game state for `board_c1`, Black to move, unfinished. -/
def g_c1 : ChessVar :=
  { _board := board_c1, _current_turn := 'B', _game_state := "UNFINISHED" }

/-- A board holding only the white king on e8. -/
def board_k6 : Board := boardOfLists
  [ [' ', ' ', ' ', ' ', 'K', ' ', ' ', ' ']
  , [' ', ' ', ' ', ' ', ' ', ' ', ' ', ' ']
  , [' ', ' ', ' ', ' ', ' ', ' ', ' ', ' ']
  , [' ', ' ', ' ', ' ', ' ', ' ', ' ', ' ']
  , [' ', ' ', ' ', ' ', ' ', ' ', ' ', ' ']
  , [' ', ' ', ' ', ' ', ' ', ' ', ' ', ' ']
  , [' ', ' ', ' ', ' ', ' ', ' ', ' ', ' ']
  , [' ', ' ', ' ', ' ', ' ', ' ', ' ', ' '] ]

/-- A finished game (used to exercise the terminal freeze). -/
def finished_game : ChessVar :=
  { _board := initial_board, _current_turn := 'W', _game_state := "WHITE_WON" }

/-! ### Basic helper lemmas -/

lemma setCell_same (b : Board) (i j : Fin 8) (v : Char) : setCell b i j v i j = v := by
  simp [setCell]

lemma setCell_other (b : Board) (i j : Fin 8) (v : Char) (i' j' : Fin 8)
    (h : ¬(i' = i ∧ j' = j)) : setCell b i j v i' j' = b i' j' := by
  simp only [setCell, if_neg h]

lemma pyIdx_of_bounds (i : Int) (h0 : 0 ≤ i) (h8 : i < 8) :
    pyIdx i = some ⟨i.toNat, by omega⟩ := by
  unfold pyIdx
  rw [dif_pos ⟨h0, h8⟩]

lemma mem_allCells (p : Fin 8 × Fin 8) : p ∈ allCells := by
  obtain ⟨i, j⟩ := p
  exact List.mem_product.mpr ⟨List.mem_finRange i, List.mem_finRange j⟩

lemma allCells_nodup : allCells.Nodup :=
  List.Nodup.product (List.nodup_finRange 8) (List.nodup_finRange 8)

lemma mem_blast_cells (r c i j : Fin 8) :
    (i, j) ∈ blast_cells r c ↔ in_blast r c i j := by
  have h : (i, j) ∈ blast_cells r c ↔ i ∈ blast_range r ∧ j ∈ blast_range c :=
    List.mem_product
  rw [h]
  unfold blast_range in_blast
  simp only [List.mem_filter, List.mem_finRange, true_and, decide_eq_true_eq]
  omega

lemma blast_cells_nodup (r c : Fin 8) : (blast_cells r c).Nodup :=
  List.Nodup.product ((List.nodup_finRange 8).filter _) ((List.nodup_finRange 8).filter _)

lemma is_valid_move_space (b : Board) (t : Char) (r1 c1 r2 c2 : Int) :
    _is_valid_move b t ' ' r1 c1 r2 c2 = false := by
  unfold _is_valid_move
  rw [if_neg (by decide : ¬(Char.toLower ' ' = 'k')),
      if_neg (by decide : ¬(Char.toLower ' ' = 'p')),
      if_neg (by decide : ¬(Char.toLower ' ' = 'r')),
      if_neg (by decide : ¬(Char.toLower ' ' = 'n')),
      if_neg (by decide : ¬(Char.toLower ' ' = 'b')),
      if_neg (by decide : ¬(Char.toLower ' ' = 'q'))]

/-! ### Explosion fold lemmas -/

lemma explosionStep_board (bs : Board × String) (q : Fin 8 × Fin 8) :
    (explosionStep bs q).1
      = if (bs.1 q.1 q.2).toLower ≠ 'p' then setCell bs.1 q.1 q.2 ' ' else bs.1 := by
  unfold explosionStep
  split <;> simp_all

lemma explosionStep_state (bs : Board × String) (q : Fin 8 × Fin 8) :
    (explosionStep bs q).2
      = if (bs.1 q.1 q.2).toLower = 'k' then
          (if bs.1 q.1 q.2 = 'K' then "BLACK_WON" else "WHITE_WON")
        else bs.2 := by
  unfold explosionStep
  by_cases hk : (bs.1 q.1 q.2).toLower = 'k'
  · have hp : (bs.1 q.1 q.2).toLower ≠ 'p' := by rw [hk]; decide
    simp [hp, hk]
  · by_cases hp : (bs.1 q.1 q.2).toLower ≠ 'p' <;> simp [hp, hk]

lemma explosionStep_agree (bs : Board × String) (q p : Fin 8 × Fin 8) (hne : p ≠ q) :
    (explosionStep bs q).1 p.1 p.2 = bs.1 p.1 p.2 := by
  rw [explosionStep_board]
  split
  · exact setCell_other _ _ _ _ _ _ (by
      intro ⟨h1, h2⟩
      exact hne (Prod.ext h1 h2))
  · rfl

lemma foldl_explosion_board :
    ∀ (L : List (Fin 8 × Fin 8)), L.Nodup → ∀ (bs : Board × String) (p : Fin 8 × Fin 8),
      (L.foldl explosionStep bs).1 p.1 p.2
        = if p ∈ L ∧ (bs.1 p.1 p.2).toLower ≠ 'p' then ' ' else bs.1 p.1 p.2 := by
  intro L
  induction L with
  | nil => intro _ bs p; simp
  | cons q T ih =>
    intro hnd bs p
    obtain ⟨hq, hT⟩ := List.nodup_cons.mp hnd
    rw [List.foldl_cons, ih hT]
    by_cases hpq : p = q
    · subst hpq
      rw [explosionStep_board]
      by_cases hp : (bs.1 p.1 p.2).toLower = 'p'
      · simp [hp, hq]
      · simp [hp, hq, setCell_same]
    · rw [explosionStep_agree bs q p hpq]
      simp [List.mem_cons, hpq]

lemma foldl_explosion_state_nokings :
    ∀ (L : List (Fin 8 × Fin 8)), L.Nodup → ∀ (bs : Board × String) (b : Board),
      (∀ p ∈ L, bs.1 p.1 p.2 = b p.1 p.2) →
      (∀ p ∈ L, (b p.1 p.2).toLower ≠ 'k') →
      (L.foldl explosionStep bs).2 = bs.2 := by
  intro L
  induction L with
  | nil => intro _ bs b _ _; rfl
  | cons a T ih =>
    intro hnd bs b hag hnk
    obtain ⟨haT, hT⟩ := List.nodup_cons.mp hnd
    rw [List.foldl_cons]
    have hak : (bs.1 a.1 a.2).toLower ≠ 'k' := by
      rw [hag a (List.mem_cons_self a T)]
      exact hnk a (List.mem_cons_self a T)
    have hstate : (explosionStep bs a).2 = bs.2 := by
      rw [explosionStep_state, if_neg hak]
    have hag' : ∀ p ∈ T, (explosionStep bs a).1 p.1 p.2 = b p.1 p.2 := by
      intro p hp
      rw [explosionStep_agree bs a p (fun h => haT (h ▸ hp)),
        hag p (List.mem_cons_of_mem a hp)]
    rw [ih hT (explosionStep bs a) b hag'
      (fun p hp => hnk p (List.mem_cons_of_mem a hp)), hstate]

lemma foldl_explosion_state_unfinished :
    ∀ (L : List (Fin 8 × Fin 8)), L.Nodup → ∀ (bs : Board × String) (b : Board),
      (∀ p ∈ L, bs.1 p.1 p.2 = b p.1 p.2) →
      (L.foldl explosionStep bs).2 = "UNFINISHED" →
      bs.2 = "UNFINISHED" ∧ ∀ p ∈ L, (b p.1 p.2).toLower ≠ 'k' := by
  intro L
  induction L with
  | nil => intro _ bs b _ h; exact ⟨h, by simp⟩
  | cons a T ih =>
    intro hnd bs b hag hfin
    obtain ⟨haT, hT⟩ := List.nodup_cons.mp hnd
    rw [List.foldl_cons] at hfin
    have hag' : ∀ p ∈ T, (explosionStep bs a).1 p.1 p.2 = b p.1 p.2 := by
      intro p hp
      rw [explosionStep_agree bs a p (fun h => haT (h ▸ hp)),
        hag p (List.mem_cons_of_mem a hp)]
    obtain ⟨hs1, hTk⟩ := ih hT (explosionStep bs a) b hag' hfin
    rw [explosionStep_state] at hs1
    by_cases hk : (bs.1 a.1 a.2).toLower = 'k'
    · rw [if_pos hk] at hs1
      exfalso
      split at hs1 <;> simp_all
    · rw [if_neg hk] at hs1
      refine ⟨hs1, ?_⟩
      intro p hp
      rcases List.mem_cons.mp hp with rfl | hpT
      · rw [← hag p (List.mem_cons_self p T)]; exact hk
      · exact hTk p hpT

lemma foldl_explosion_state_king :
    ∀ (L : List (Fin 8 × Fin 8)), L.Nodup → ∀ (bs : Board × String) (b : Board),
      (∀ p ∈ L, bs.1 p.1 p.2 = b p.1 p.2) →
      ∀ q, q ∈ L → (b q.1 q.2).toLower = 'k' →
      (∀ p ∈ L, (b p.1 p.2).toLower = 'k' → p = q) →
      (L.foldl explosionStep bs).2
        = (if b q.1 q.2 = 'K' then "BLACK_WON" else "WHITE_WON") := by
  intro L
  induction L with
  | nil => intro _ bs b _ q hqL _ _; exact absurd hqL (List.not_mem_nil q)
  | cons a T ih =>
    intro hnd bs b hag q hqL hk huniq
    obtain ⟨haT, hT⟩ := List.nodup_cons.mp hnd
    rw [List.foldl_cons]
    have hag' : ∀ p ∈ T, (explosionStep bs a).1 p.1 p.2 = b p.1 p.2 := by
      intro p hp
      rw [explosionStep_agree bs a p (fun h => haT (h ▸ hp)),
        hag p (List.mem_cons_of_mem a hp)]
    rcases List.mem_cons.mp hqL with rfl | hqT
    · have hstep : (explosionStep bs q).2
          = (if b q.1 q.2 = 'K' then "BLACK_WON" else "WHITE_WON") := by
        rw [explosionStep_state, hag q (List.mem_cons_self q T), if_pos hk]
      have hnk : ∀ p ∈ T, (b p.1 p.2).toLower ≠ 'k' := by
        intro p hp hkp
        have hpq := huniq p (List.mem_cons_of_mem q hp) hkp
        exact haT (hpq ▸ hp)
      rw [foldl_explosion_state_nokings T hT (explosionStep bs q) b hag' hnk, hstep]
    · exact ih hT (explosionStep bs a) b hag' q hqT hk
        (fun p hp hkp => huniq p (List.mem_cons_of_mem a hp) hkp)

lemma explosion_board (b : Board) (s : String) (r c i j : Fin 8) :
    (_explosion b s r c).1 i j
      = if in_blast r c i j ∧ (b i j).toLower ≠ 'p' then ' ' else b i j := by
  have h := foldl_explosion_board (blast_cells r c) (blast_cells_nodup r c) (b, s) (i, j)
  simpa [mem_blast_cells] using h

lemma explosion_state_unfinished (b : Board) (s : String) (r c : Fin 8)
    (h : (_explosion b s r c).2 = "UNFINISHED") :
    s = "UNFINISHED" ∧ ∀ i j, in_blast r c i j → (b i j).toLower ≠ 'k' := by
  have h2 := foldl_explosion_state_unfinished (blast_cells r c) (blast_cells_nodup r c)
    (b, s) b (fun _ _ => rfl) h
  refine ⟨h2.1, fun i j hij => ?_⟩
  exact h2.2 (i, j) ((mem_blast_cells r c i j).mpr hij)

lemma explosion_state_nokings (b : Board) (s : String) (r c : Fin 8)
    (h : ∀ i j, in_blast r c i j → (b i j).toLower ≠ 'k') :
    (_explosion b s r c).2 = s := by
  exact foldl_explosion_state_nokings (blast_cells r c) (blast_cells_nodup r c)
    (b, s) b (fun _ _ => rfl)
    (fun p hp => h p.1 p.2 ((mem_blast_cells r c p.1 p.2).mp hp))

lemma explosion_state_king (b : Board) (s : String) (r c i j : Fin 8)
    (hin : in_blast r c i j) (hk : (b i j).toLower = 'k')
    (huniq : ∀ i' j', in_blast r c i' j' → (b i' j').toLower = 'k' → (i', j') = (i, j)) :
    (_explosion b s r c).2 = (if b i j = 'K' then "BLACK_WON" else "WHITE_WON") := by
  exact foldl_explosion_state_king (blast_cells r c) (blast_cells_nodup r c)
    (b, s) b (fun _ _ => rfl) (i, j) ((mem_blast_cells r c i j).mpr hin) hk
    (fun p hp hkp => huniq p.1 p.2 ((mem_blast_cells r c p.1 p.2).mp hp) hkp)

/-! ### Counting lemmas -/

lemma filter_count_setCell :
    ∀ (L : List (Fin 8 × Fin 8)), L.Nodup → ∀ (b : Board) (q : Fin 8 × Fin 8) (v ch : Char),
      q ∈ L →
      (L.filter (fun p => setCell b q.1 q.2 v p.1 p.2 == ch)).length
          + (if b q.1 q.2 = ch then 1 else 0)
        = (L.filter (fun p => b p.1 p.2 == ch)).length + (if v = ch then 1 else 0) := by
  intro L
  induction L with
  | nil => intro _ b q v ch hq; exact absurd hq (List.not_mem_nil q)
  | cons a T ih =>
    intro hnd b q v ch hq
    obtain ⟨haT, hT⟩ := List.nodup_cons.mp hnd
    rcases List.mem_cons.mp hq with rfl | hqT
    · have htail : T.filter (fun p => setCell b q.1 q.2 v p.1 p.2 == ch)
          = T.filter (fun p => b p.1 p.2 == ch) := by
        apply List.filter_congr
        intro p hp
        rw [setCell_other b q.1 q.2 v p.1 p.2
          (fun hh => haT (Prod.ext hh.1 hh.2 ▸ hp))]
      rw [List.filter_cons, List.filter_cons, htail, setCell_same]
      by_cases h1 : v = ch <;> by_cases h2 : b q.1 q.2 = ch <;>
        simp [h1, h2]
    · have haq : ¬(a.1 = q.1 ∧ a.2 = q.2) := by
        intro hh
        have haq' : a = q := Prod.ext hh.1 hh.2
        exact haT (by rw [haq']; exact hqT)
      rw [List.filter_cons, List.filter_cons, setCell_other b q.1 q.2 v a.1 a.2 haq]
      have hrec := ih hT b q v ch hqT
      by_cases h3 : b a.1 a.2 = ch <;> simp [h3] <;> omega

lemma kCount_setCell (b : Board) (q : Fin 8 × Fin 8) (v ch : Char) :
    kCount (setCell b q.1 q.2 v) ch + (if b q.1 q.2 = ch then 1 else 0)
      = kCount b ch + (if v = ch then 1 else 0) :=
  filter_count_setCell allCells allCells_nodup b q v ch (mem_allCells q)

lemma kCount_congr (b1 b2 : Board) (ch : Char)
    (h : ∀ i j, b1 i j = ch ↔ b2 i j = ch) : kCount b1 ch = kCount b2 ch := by
  unfold kCount
  congr 1
  apply List.filter_congr
  intro p _
  by_cases h1 : b1 p.1 p.2 = ch
  · simp [h1, (h p.1 p.2).mp h1]
  · have h2 : ¬(b2 p.1 p.2 = ch) := fun hh => h1 ((h p.1 p.2).mpr hh)
    simp [h1, h2]

/-! ### `make_move` case analysis -/

lemma make_move_frozen (g : ChessVar) (a b : String) (h : g._game_state ≠ "UNFINISHED") :
    make_move g a b = (Except.ok false, g) := by
  unfold make_move
  rw [if_pos h]

lemma make_move_elim (g : ChessVar) (a b : String)
    (P : Except PyExc Bool × ChessVar → Prop)
    (herr : ∀ e, P (Except.error e, g))
    (hreject : P (Except.ok false, g))
    (happly : ∀ (sr sc nr nc : Int) (si sj di dj : Fin 8),
      g._game_state = "UNFINISHED" →
      _convert_square_to_indices a = Except.ok (sr, sc) →
      _convert_square_to_indices b = Except.ok (nr, nc) →
      (0 ≤ nr ∧ nr < 8 ∧ 0 ≤ nc ∧ nc < 8) →
      pyIdx sr = some si → pyIdx sc = some sj →
      pyIdx nr = some di → pyIdx nc = some dj →
      ((g._board si sj).isLower && g._current_turn == 'W'
          || (g._board si sj).isUpper && g._current_turn == 'B') = false →
      _is_valid_move g._board g._current_turn (g._board si sj) sr sc nr nc = true →
      P (Except.ok true, applied_state g si sj di dj)) :
    P (make_move g a b) := by
  unfold make_move
  split
  · exact hreject
  next h0 =>
  have h0' : g._game_state = "UNFINISHED" := not_not.mp h0
  split
  next x e hca => exact herr e
  next x sr sc hca =>
  split
  next y e hcb => exact herr e
  next y nr nc hcb =>
  split
  · exact hreject
  next hbounds =>
  have hbounds2 : 0 ≤ nr ∧ nr < 8 ∧ 0 ≤ nc ∧ nc < 8 := not_not.mp hbounds
  split
  next u v si sj hsi hsj =>
    split
    next w z di dj hdi hdj =>
      dsimp only
      split
      next hgate => exact hreject
      next hgate =>
      split
      next hvalid =>
        exact happly sr sc nr nc si sj di dj h0' hca hcb hbounds2 hsi hsj hdi hdj
          (by revert hgate; simp) hvalid
      next hvalid => exact hreject
    next w z hgate =>
      exfalso
      obtain ⟨h1, h2, h3, h4⟩ := hbounds2
      exact hgate ⟨nr.toNat, by omega⟩ ⟨nc.toNat, by omega⟩
        (pyIdx_of_bounds nr h1 h2) (pyIdx_of_bounds nc h3 h4)
  next q1 q2 hopt => exact herr PyExc.indexError

/-! ### The applied move: branch equations -/

lemma applied_state_noncapture (g : ChessVar) (si sj di dj : Fin 8)
    (h : g._board di dj = ' ') :
    applied_state g si sj di dj =
      { _board := setCell (setCell g._board di dj (g._board si sj)) si sj ' '
      , _current_turn :=
          if g._game_state = "UNFINISHED" then
            (if g._current_turn = 'W' then 'B' else 'W')
          else g._current_turn
      , _game_state := g._game_state } := by
  unfold applied_state
  dsimp only
  rw [if_neg (fun hc => hc h)]

lemma applied_state_capture (g : ChessVar) (si sj di dj : Fin 8)
    (h : g._board di dj ≠ ' ') :
    applied_state g si sj di dj =
      { _board := (_explosion (setCell (setCell g._board di dj (g._board si sj)) si sj ' ')
            (if (g._board di dj).toLower == 'k' || (g._board si sj).toLower == 'k' then
              (if (g._board di dj).toLower == 'k' then "WHITE_WON" else "BLACK_WON")
            else g._game_state) di dj).1
      , _current_turn :=
          if (_explosion (setCell (setCell g._board di dj (g._board si sj)) si sj ' ')
              (if (g._board di dj).toLower == 'k' || (g._board si sj).toLower == 'k' then
                (if (g._board di dj).toLower == 'k' then "WHITE_WON" else "BLACK_WON")
              else g._game_state) di dj).2 = "UNFINISHED" then
            (if g._current_turn = 'W' then 'B' else 'W')
          else g._current_turn
      , _game_state := (_explosion (setCell (setCell g._board di dj (g._board si sj)) si sj ' ')
            (if (g._board di dj).toLower == 'k' || (g._board si sj).toLower == 'k' then
              (if (g._board di dj).toLower == 'k' then "WHITE_WON" else "BLACK_WON")
            else g._game_state) di dj).2 } := by
  unfold applied_state
  dsimp only
  rw [if_pos h]

lemma setCell_outer_at (b : Board) (di dj si sj : Fin 8) :
    setCell b di dj (b si sj) si sj = b si sj := by
  by_cases hsd : si = di ∧ sj = dj
  · unfold setCell
    rw [if_pos hsd, hsd.1, hsd.2]
  · exact setCell_other _ _ _ _ _ _ hsd

lemma char_ne_king (x ch : Char) (hch : ch = 'k' ∨ ch = 'K')
    (hx : x.toLower ≠ 'k') : x ≠ ch := by
  intro he
  apply hx
  rw [he]
  rcases hch with rfl | rfl <;> decide

lemma applied_kcount (g : ChessVar) (si sj di dj : Fin 8) (ch : Char)
    (hch : ch = 'k' ∨ ch = 'K')
    (hfin : (applied_state g si sj di dj)._game_state = "UNFINISHED") :
    kCount (applied_state g si sj di dj)._board ch = kCount g._board ch := by
  have hspace : (' ' : Char) ≠ ch := by rcases hch with rfl | rfl <;> decide
  by_cases hcap : g._board di dj = ' '
  · rw [applied_state_noncapture g si sj di dj hcap]
    dsimp only
    have h1 := kCount_setCell g._board (di, dj) (g._board si sj) ch
    have h2 := kCount_setCell (setCell g._board di dj (g._board si sj)) (si, sj)
      ' ' ch
    dsimp only at h1 h2
    rw [setCell_outer_at] at h2
    rw [hcap] at h1
    rw [if_neg hspace] at h1 h2
    generalize hz : (if g._board si sj = ch then 1 else 0) = z at h1 h2
    omega
  · rw [applied_state_capture g si sj di dj hcap] at hfin ⊢
    dsimp only at hfin ⊢
    obtain ⟨hst1, hnok⟩ := explosion_state_unfinished _ _ _ _ hfin
    have hc : ((g._board di dj).toLower == 'k' || (g._board si sj).toLower == 'k')
        = false := by
      by_contra hcon
      rw [Bool.not_eq_false] at hcon
      rw [if_pos hcon] at hst1
      split at hst1 <;> simp_all
    have hc1 : (g._board di dj).toLower ≠ 'k' := by
      intro h; rw [h] at hc; simp at hc
    have hc2 : (g._board si sj).toLower ≠ 'k' := by
      intro h; rw [h] at hc; simp at hc
    have hnecap : g._board di dj ≠ ch := char_ne_king _ ch hch hc1
    have hnepc : g._board si sj ≠ ch := char_ne_king _ ch hch hc2
    have hexp : kCount (_explosion (setCell (setCell g._board di dj (g._board si sj)) si sj ' ')
        (if (g._board di dj).toLower == 'k' || (g._board si sj).toLower == 'k' then
          (if (g._board di dj).toLower == 'k' then "WHITE_WON" else "BLACK_WON")
        else g._game_state) di dj).1 ch
        = kCount (setCell (setCell g._board di dj (g._board si sj)) si sj ' ') ch := by
      apply kCount_congr
      intro i j
      rw [explosion_board]
      split
      next hcond =>
        constructor
        · intro he; exact absurd he hspace
        · intro he
          exact absurd he (char_ne_king _ ch hch (hnok i j hcond.1))
      next hcond => exact Iff.rfl
    rw [hexp]
    have h1 := kCount_setCell g._board (di, dj) (g._board si sj) ch
    have h2 := kCount_setCell (setCell g._board di dj (g._board si sj)) (si, sj)
      ' ' ch
    dsimp only at h1 h2
    rw [setCell_outer_at] at h2
    rw [if_neg hnecap, if_neg hnepc] at h1
    rw [if_neg hnepc, if_neg (fun he => hspace he)] at h2
    omega

lemma make_move_kcount (g : ChessVar) (a b : String) (ch : Char)
    (hch : ch = 'k' ∨ ch = 'K')
    (hfin : (make_move g a b).2._game_state = "UNFINISHED") :
    kCount (make_move g a b).2._board ch = kCount g._board ch := by
  revert hfin
  refine make_move_elim g a b
    (fun r => r.2._game_state = "UNFINISHED" → kCount r.2._board ch = kCount g._board ch)
    (fun e _ => rfl) (fun _ => rfl) ?_
  intro sr sc nr nc si sj di dj _ _ _ _ _ _ _ _ _ _ hfin
  exact applied_kcount g si sj di dj ch hch hfin

lemma reachable_kings (g : ChessVar) (h : Reachable g) :
    g._game_state = "UNFINISHED" → kCount g._board 'k' = 1 ∧ kCount g._board 'K' = 1 := by
  induction h with
  | init => intro _; exact ⟨by decide, by decide⟩
  | @step g0 a b hR ih =>
    intro hfin
    by_cases hgf : g0._game_state = "UNFINISHED"
    · have h1 := make_move_kcount g0 a b 'k' (Or.inl rfl) hfin
      have h2 := make_move_kcount g0 a b 'K' (Or.inr rfl) hfin
      obtain ⟨c1, c2⟩ := ih hgf
      exact ⟨h1.trans c1, h2.trans c2⟩
    · rw [make_move_frozen g0 a b hgf] at hfin
      exact absurd hfin hgf

/-! ### Well-formed notation: conversion succeeds in bounds, no exception -/

lemma conv_of_data (s : String) (cf cr : Char) (hdata : s.data = [cf, cr])
    (hd : cr.isDigit = true) :
    _convert_square_to_indices s
      = Except.ok (8 - ((cr.toNat : Int) - 48), (cf.toNat : Int) - 97) := by
  unfold _convert_square_to_indices
  rw [hdata]
  dsimp only
  unfold pyInt
  rw [if_pos hd]

lemma conv_wf (s : String) (h : well_formed s) :
    ∃ r c : Int, _convert_square_to_indices s = Except.ok (r, c)
      ∧ 0 ≤ r ∧ r < 8 ∧ 0 ≤ c ∧ c < 8 := by
  obtain ⟨cf, cr, hdata, hcf, hcr⟩ := h
  have hd : cr.isDigit = true := by fin_cases hcr <;> decide
  refine ⟨_, _, conv_of_data s cf cr hdata hd, ?_, ?_, ?_, ?_⟩
  · fin_cases hcr <;> decide
  · fin_cases hcr <;> decide
  · fin_cases hcf <;> decide
  · fin_cases hcf <;> decide

lemma pyIdx_some_of_bounds (i : Int) (h0 : 0 ≤ i) (h8 : i < 8) :
    ∃ fi : Fin 8, pyIdx i = some fi := ⟨_, pyIdx_of_bounds i h0 h8⟩

lemma make_move_wf (g : ChessVar) (a b : String) (sr sc nr nc : Int)
    (hca : _convert_square_to_indices a = Except.ok (sr, sc))
    (hcb : _convert_square_to_indices b = Except.ok (nr, nc))
    (hsr : 0 ≤ sr ∧ sr < 8) (hsc : 0 ≤ sc ∧ sc < 8)
    (hnr : 0 ≤ nr ∧ nr < 8) (hnc : 0 ≤ nc ∧ nc < 8) :
    (make_move g a b).1 = Except.ok true
      ∨ ((make_move g a b).1 = Except.ok false ∧ (make_move g a b).2 = g) := by
  obtain ⟨si, hsi⟩ := pyIdx_some_of_bounds sr hsr.1 hsr.2
  obtain ⟨sj, hsj⟩ := pyIdx_some_of_bounds sc hsc.1 hsc.2
  obtain ⟨di, hdi⟩ := pyIdx_some_of_bounds nr hnr.1 hnr.2
  obtain ⟨dj, hdj⟩ := pyIdx_some_of_bounds nc hnc.1 hnc.2
  unfold make_move
  split
  · exact Or.inr ⟨rfl, rfl⟩
  rw [hca, hcb]
  dsimp only
  rw [if_neg (not_not_intro ⟨hnr.1, hnr.2, hnc.1, hnc.2⟩)]
  rw [hsi, hsj]
  dsimp only
  by_cases hgate : ((g._board si sj).isLower && g._current_turn == 'W'
      || (g._board si sj).isUpper && g._current_turn == 'B') = true
  · rw [if_pos hgate]
    exact Or.inr ⟨rfl, rfl⟩
  · rw [if_neg hgate]
    by_cases hvalid : _is_valid_move g._board g._current_turn (g._board si sj)
        sr sc nr nc = true
    · rw [if_pos hvalid, hdi, hdj]
      exact Or.inl rfl
    · rw [if_neg hvalid]
      exact Or.inr ⟨rfl, rfl⟩

/-! ### Claim theorems -/

/-- C1: evaluation at the failing input.  With Black to move and only a
white king on e8 and a black rook on e4, `make_move("e4","e8")` — Black
capturing the white king, with no further king in the blast — is applied
and sets the game state to `WHITE_WON`: the winner ternary in `make_move`
compares `captured_piece.lower()` and therefore awards the win to White
whenever any king is captured, contradicting the claim that Black's
capture of the white king yields a Black win. -/
theorem C1_black_capture_white_king_sets_white_won :
    (make_move g_c1 "e4" "e8").1 = Except.ok true
      ∧ (make_move g_c1 "e4" "e8").2._game_state = "WHITE_WON"
      ∧ g_c1._board 0 4 = 'K' ∧ g_c1._current_turn = 'B'
      ∧ g_c1._game_state = "UNFINISHED" := by
  refine ⟨rfl, rfl, rfl, rfl, rfl⟩

/-- C2: evaluation at the failing input.  On the initial board the white
knight's `(1,2)`-shape move b1→d2 lands on White's own pawn, yet
`_is_valid_move` accepts it (the occupancy test binds only to the `(2,1)`
shape), and `make_move` applies the self-capture — contradicting the claim
that the occupancy condition applies equally to both knight shapes. -/
theorem C2_knight_shape_occupancy_bug :
    _is_valid_move initial_board 'W' 'N' 7 1 6 3 = true
      ∧ initial_board 6 3 = 'P'
      ∧ ('N' : Char).isUpper = ('P' : Char).isUpper
      ∧ (make_move initial_game "b1" "d2").1 = Except.ok true := by
  refine ⟨rfl, rfl, rfl, rfl⟩

/-- C3 counterexample: `make_move` with the malformed origin string
`"e2e4"` raises (models Python's `ValueError` from unpacking a string that
is not exactly two characters), instead of returning `False`. -/
theorem C3_malformed_raises_counterexample :
    (make_move initial_game "e2e4" "e4").1 = Except.error PyExc.valueError := by
  rfl

/-- C3 (amended): for well-formed two-character inputs (file `'a'`–`'h'`,
rank `'1'`–`'8'`), `make_move` never raises: it either applies the move
and returns `True`, or returns `False` with the board, turn, and outcome
unchanged. -/
theorem C3_wellformed_no_exception (g : ChessVar) (a b : String)
    (ha : well_formed a) (hb : well_formed b) :
    (make_move g a b).1 = Except.ok true
      ∨ ((make_move g a b).1 = Except.ok false ∧ (make_move g a b).2 = g) := by
  obtain ⟨r1, c1, hca, hb1, hb2, hb3, hb4⟩ := conv_wf a ha
  obtain ⟨r2, c2, hcb, hb5, hb6, hb7, hb8⟩ := conv_wf b hb
  exact make_move_wf g a b r1 c1 r2 c2 hca hcb ⟨hb1, hb2⟩ ⟨hb3, hb4⟩ ⟨hb5, hb6⟩ ⟨hb7, hb8⟩

/-- C3 witness: the amended theorem applied at the initial game and the
well-formed pair `("e2","e4")`. -/
theorem C3_wellformed_no_exception_witness :
    (make_move initial_game "e2" "e4").1 = Except.ok true
      ∨ ((make_move initial_game "e2" "e4").1 = Except.ok false
        ∧ (make_move initial_game "e2" "e4").2 = initial_game) :=
  C3_wellformed_no_exception initial_game "e2" "e4"
    ⟨'e', '2', rfl, by decide, by decide⟩ ⟨'e', '4', rfl, by decide, by decide⟩

/-- C4 counterexample: the legality verdict of `_is_valid_move` is not
turn-independent: on the initial board the black pawn move (1,4)→(2,4) is
rejected when the current turn is White and accepted when it is Black —
the pawn branch consults `self._current_turn`, not the pawn's color. -/
theorem C4_turn_dependence_counterexample :
    _is_valid_move initial_board 'W' 'p' 1 4 2 4 = false
      ∧ _is_valid_move initial_board 'B' 'p' 1 4 2 4 = true := by
  refine ⟨rfl, rfl⟩

/-- C4 (amended): for every non-pawn piece the legality verdict is
identical whatever the current turn; only the pawn branch of
`_is_valid_move` reads the turn (and `make_move` only validates pieces of
the side to move, for which the turn equals the piece's color). -/
theorem C4_nonpawn_turn_independent (bd : Board) (t1 t2 piece : Char)
    (sr sc nr nc : Int) (hp : piece.toLower ≠ 'p') :
    _is_valid_move bd t1 piece sr sc nr nc = _is_valid_move bd t2 piece sr sc nr nc := by
  unfold _is_valid_move
  by_cases hk : piece.toLower = 'k'
  · rw [if_pos hk, if_pos hk]
  · rw [if_neg hk, if_neg hk, if_neg hp, if_neg hp]

/-- C4 witness: the amended theorem applied to the white knight move
b1→c3 on the initial board, with the two turns. -/
theorem C4_nonpawn_turn_independent_witness :
    _is_valid_move initial_board 'W' 'N' 7 1 5 2
      = _is_valid_move initial_board 'B' 'N' 7 1 5 2 :=
  C4_nonpawn_turn_independent initial_board 'W' 'B' 'N' 7 1 5 2 (by decide)

/-- C5: terminal freeze.  Once the game state is not `UNFINISHED`, every
`make_move` call returns `False` and leaves the whole state — board, turn
and outcome — exactly as it was; the terminal outcome is never left. -/
theorem C5_terminal_freeze (g : ChessVar) (a b : String)
    (h : g._game_state ≠ "UNFINISHED") :
    make_move g a b = (Except.ok false, g) :=
  make_move_frozen g a b h

/-- C5 witness: the freeze applied to a finished game. -/
theorem C5_terminal_freeze_witness :
    make_move finished_game "e2" "e4" = (Except.ok false, finished_game) :=
  C5_terminal_freeze finished_game "e2" "e4" (by decide)

/-- C6: explosion radius.  For every board and center, `_explosion` sets to
empty exactly the non-pawn occupants of the clipped 3×3 neighbourhood
(rows `[max(0,r−1), min(7,r+1)]` × columns `[max(0,c−1), min(7,c+1)]`,
center included), leaves pawns in the radius and all squares outside it
untouched; if the radius holds no king the outcome is unchanged, and if it
holds exactly one king the outcome becomes a win for the color opposite
that king's. -/
theorem C6_explosion_radius (b : Board) (s : String) (r c : Fin 8) :
    (∀ i j : Fin 8, (_explosion b s r c).1 i j
        = if in_blast r c i j ∧ (b i j).toLower ≠ 'p' then ' ' else b i j)
    ∧ ((∀ i j : Fin 8, in_blast r c i j → (b i j).toLower ≠ 'k') →
        (_explosion b s r c).2 = s)
    ∧ (∀ i j : Fin 8, in_blast r c i j → (b i j).toLower = 'k' →
        (∀ i' j' : Fin 8, in_blast r c i' j' → (b i' j').toLower = 'k' → (i', j') = (i, j)) →
        (_explosion b s r c).2 = (if b i j = 'K' then "BLACK_WON" else "WHITE_WON")) :=
  ⟨fun i j => explosion_board b s r c i j,
   fun h => explosion_state_nokings b s r c h,
   fun i j hin hk huniq => explosion_state_king b s r c i j hin hk huniq⟩

/-- C6 witness: exploding e7 on a board holding only the white king on e8
removes the king (a non-pawn in the radius) and sets `BLACK_WON`. -/
theorem C6_explosion_radius_witness :
    (_explosion board_k6 "UNFINISHED" 1 4).2 = "BLACK_WON"
      ∧ (_explosion board_k6 "UNFINISHED" 1 4).1 0 4 = ' ' := by
  have h := C6_explosion_radius board_k6 "UNFINISHED" 1 4
  constructor
  · have hk := h.2.2 0 4 (by decide) (by decide) (by decide)
    rw [hk]
    rfl
  · rw [h.1 0 4]
    rfl

/-- C7 counterexample: with the off-board origin notation `"a0"` (row
index 8), `make_move` raises `IndexError` — it neither returns `True` nor
returns `False`, so the claim's two-way disjunction fails as stated. -/
theorem C7_exception_counterexample :
    (make_move initial_game "a0" "a1").1 = Except.error PyExc.indexError
      ∧ initial_game._game_state = "UNFINISHED" := by
  refine ⟨rfl, rfl⟩

/-- C7 (amended): `make_move` is atomic up to exceptions: it returns
`True` with the move fully applied, or returns `False` with the state
unchanged, or raises (malformed or out-of-range origin notation) with the
state unchanged; no rejection or exception path mutates anything. -/
theorem C7_atomic_up_to_exceptions (g : ChessVar) (a b : String) :
    ((make_move g a b).1 = Except.ok false → (make_move g a b).2 = g)
    ∧ (∀ e, (make_move g a b).1 = Except.error e → (make_move g a b).2 = g) := by
  refine make_move_elim g a b (fun r =>
      (r.1 = Except.ok false → r.2 = g) ∧ (∀ e, r.1 = Except.error e → r.2 = g))
    ?_ ?_ ?_
  · intro e
    exact ⟨fun h => by simp at h, fun _ _ => rfl⟩
  · exact ⟨fun _ => rfl, fun e h => by simp at h⟩
  · intro sr sc nr nc si sj di dj _ _ _ _ _ _ _ _ _ _
    exact ⟨fun h => by simp at h, fun e h => by simp at h⟩

/-- C7 witness: the amended theorem applied to the rejected move e2→e5
from the initial position. -/
theorem C7_atomic_up_to_exceptions_witness :
    (make_move initial_game "e2" "e5").2 = initial_game :=
  (C7_atomic_up_to_exceptions initial_game "e2" "e5").1 (by rfl)

/-- C8: turn alternation.  For a state whose turn is a color: an applied
move that leaves the game unfinished flips the turn to the opposite color;
an applied move that ends the game leaves the turn unchanged; a rejected
move (return `False`) leaves the whole state unchanged. -/
theorem C8_turn_alternation (g : ChessVar) (a b : String)
    (ht : g._current_turn = 'W' ∨ g._current_turn = 'B') :
    ((make_move g a b).1 = Except.ok true →
        (make_move g a b).2._game_state = "UNFINISHED" →
        (make_move g a b).2._current_turn
            = (if g._current_turn = 'W' then 'B' else 'W')
          ∧ (make_move g a b).2._current_turn ≠ g._current_turn)
    ∧ ((make_move g a b).1 = Except.ok true →
        (make_move g a b).2._game_state ≠ "UNFINISHED" →
        (make_move g a b).2._current_turn = g._current_turn)
    ∧ ((make_move g a b).1 = Except.ok false → (make_move g a b).2 = g) := by
  have hflip : (if g._current_turn = 'W' then 'B' else 'W') ≠ g._current_turn := by
    rcases ht with h | h <;> rw [h] <;> decide
  refine make_move_elim g a b (fun r =>
      (r.1 = Except.ok true → r.2._game_state = "UNFINISHED" →
        r.2._current_turn = (if g._current_turn = 'W' then 'B' else 'W')
          ∧ r.2._current_turn ≠ g._current_turn)
      ∧ (r.1 = Except.ok true → r.2._game_state ≠ "UNFINISHED" →
        r.2._current_turn = g._current_turn)
      ∧ (r.1 = Except.ok false → r.2 = g)) ?_ ?_ ?_
  · intro e
    exact ⟨fun h => by simp at h, fun h => by simp at h, fun h => by simp at h⟩
  · exact ⟨fun h => by simp at h, fun h => by simp at h, fun _ => rfl⟩
  · intro sr sc nr nc si sj di dj h0' _ _ _ _ _ _ _ _ _
    by_cases hcap : g._board di dj = ' '
    · rw [applied_state_noncapture g si sj di dj hcap]
      dsimp only
      refine ⟨fun _ _ => ?_, fun _ hnfin => absurd h0' hnfin, fun h => by simp at h⟩
      rw [if_pos h0']
      exact ⟨rfl, hflip⟩
    · rw [applied_state_capture g si sj di dj hcap]
      dsimp only
      refine ⟨fun _ hfin => ?_, fun _ hnfin => ?_, fun h => by simp at h⟩
      · rw [if_pos hfin]
        exact ⟨rfl, hflip⟩
      · rw [if_neg hnfin]

/-- C8 witness: after e2→e3 from the initial position the turn is Black,
and differs from the turn before the move. -/
theorem C8_turn_alternation_witness :
    (make_move initial_game "e2" "e3").2._current_turn = 'B'
      ∧ (make_move initial_game "e2" "e3").2._current_turn ≠ 'W' := by
  have h := (C8_turn_alternation initial_game "e2" "e3" (Or.inl rfl)).1 rfl rfl
  exact ⟨h.1, h.2⟩

/-- C9: king invariant.  In every state reachable from the fresh game:
while the outcome is `UNFINISHED` each color has exactly one king on the
board; and whenever a `make_move` call removes a king of either color (its
count decreases, whether by direct capture or by the blast), the resulting
outcome is terminal and every further `make_move` returns `False` leaving
the state untouched — the board is never mutated again. -/
theorem C9_king_invariant (g : ChessVar) (h : Reachable g) :
    (g._game_state = "UNFINISHED" →
        kCount g._board 'k' = 1 ∧ kCount g._board 'K' = 1)
    ∧ (∀ a b : String,
        (kCount (make_move g a b).2._board 'k' < kCount g._board 'k'
          ∨ kCount (make_move g a b).2._board 'K' < kCount g._board 'K') →
        (make_move g a b).2._game_state ≠ "UNFINISHED"
          ∧ ∀ a' b' : String,
              make_move ((make_move g a b).2) a' b'
                = (Except.ok false, (make_move g a b).2)) := by
  refine ⟨reachable_kings g h, ?_⟩
  intro a b hdec
  have hnf : (make_move g a b).2._game_state ≠ "UNFINISHED" := by
    intro hfin
    rcases hdec with hlt | hlt
    · rw [make_move_kcount g a b 'k' (Or.inl rfl) hfin] at hlt
      exact lt_irrefl _ hlt
    · rw [make_move_kcount g a b 'K' (Or.inr rfl) hfin] at hlt
      exact lt_irrefl _ hlt
  exact ⟨hnf, fun a' b' => make_move_frozen _ a' b' hnf⟩

/-- C9 witness: the invariant applied to the initial game. -/
theorem C9_king_invariant_witness :
    kCount initial_game._board 'k' = 1 ∧ kCount initial_game._board 'K' = 1 :=
  (C9_king_invariant initial_game Reachable.init).1 rfl

/-- C10: non-capturing frame.  For an applied move whose destination
square was empty, exactly the two cells named by the notation change: the
origin (which held the moving piece, not blank) becomes blank, the
destination receives the moved piece, every other cell is unchanged, and
the outcome remains `UNFINISHED` (no explosion is triggered). -/
theorem C10_noncapture_frame (g : ChessVar) (a b : String) (sr sc nr nc : Int)
    (si sj di dj : Fin 8)
    (hca : _convert_square_to_indices a = Except.ok (sr, sc))
    (hcb : _convert_square_to_indices b = Except.ok (nr, nc))
    (hsi : pyIdx sr = some si) (hsj : pyIdx sc = some sj)
    (hdi : pyIdx nr = some di) (hdj : pyIdx nc = some dj)
    (hempty : g._board di dj = ' ')
    (happ : (make_move g a b).1 = Except.ok true) :
    g._board si sj ≠ ' '
    ∧ ¬(si = di ∧ sj = dj)
    ∧ (make_move g a b).2._board si sj = ' '
    ∧ (make_move g a b).2._board di dj = g._board si sj
    ∧ (∀ i j : Fin 8, ¬(i = si ∧ j = sj) → ¬(i = di ∧ j = dj) →
        (make_move g a b).2._board i j = g._board i j)
    ∧ (make_move g a b).2._game_state = "UNFINISHED" := by
  revert happ
  refine make_move_elim g a b (fun r => r.1 = Except.ok true →
      g._board si sj ≠ ' '
      ∧ ¬(si = di ∧ sj = dj)
      ∧ r.2._board si sj = ' '
      ∧ r.2._board di dj = g._board si sj
      ∧ (∀ i j : Fin 8, ¬(i = si ∧ j = sj) → ¬(i = di ∧ j = dj) →
          r.2._board i j = g._board i j)
      ∧ r.2._game_state = "UNFINISHED") ?_ ?_ ?_
  · intro e h; simp at h
  · intro h; simp at h
  · intro sr' sc' nr' nc' si' sj' di' dj' h0' hca' hcb' _ hsi' hsj' hdi' hdj' _ hvalid _
    rw [hca] at hca'
    injection hca' with hpair
    injection hpair with he1 he2
    subst he1; subst he2
    rw [hcb] at hcb'
    injection hcb' with hpair2
    injection hpair2 with he3 he4
    subst he3; subst he4
    rw [hsi] at hsi'; injection hsi' with he5; subst he5
    rw [hsj] at hsj'; injection hsj' with he6; subst he6
    rw [hdi] at hdi'; injection hdi' with he7; subst he7
    rw [hdj] at hdj'; injection hdj' with he8; subst he8
    have hpne : g._board si sj ≠ ' ' := by
      intro hsp
      rw [hsp, is_valid_move_space] at hvalid
      exact Bool.false_ne_true hvalid
    have hsd : ¬(si = di ∧ sj = dj) := by
      intro hh
      apply hpne
      rw [hh.1, hh.2, hempty]
    rw [applied_state_noncapture g si sj di dj hempty]
    dsimp only
    refine ⟨hpne, hsd, setCell_same _ _ _ _, ?_, ?_, h0'⟩
    · have hds : ¬(di = si ∧ dj = sj) := fun hh => hsd ⟨hh.1.symm, hh.2.symm⟩
      rw [setCell_other _ _ _ _ _ _ hds, setCell_same]
    · intro i j hns hnd
      rw [setCell_other _ _ _ _ _ _ hns, setCell_other _ _ _ _ _ _ hnd]

/-- C10 witness: the frame property at the initial position for the
non-capturing pawn double-step e2→e4. -/
theorem C10_noncapture_frame_witness :
    initial_game._board 6 4 ≠ ' '
    ∧ ¬((6 : Fin 8) = 4 ∧ (4 : Fin 8) = 4)
    ∧ (make_move initial_game "e2" "e4").2._board 6 4 = ' '
    ∧ (make_move initial_game "e2" "e4").2._board 4 4 = initial_game._board 6 4
    ∧ (∀ i j : Fin 8, ¬(i = 6 ∧ j = 4) → ¬(i = 4 ∧ j = 4) →
        (make_move initial_game "e2" "e4").2._board i j = initial_game._board i j)
    ∧ (make_move initial_game "e2" "e4").2._game_state = "UNFINISHED" :=
  C10_noncapture_frame initial_game "e2" "e4" 6 4 4 4 6 4 4 4
    rfl rfl rfl rfl rfl rfl rfl rfl
